import Mathlib

/-!
Verification of the documentation-rendering pipeline in
`blocks/docs-renderer/docs-renderer.js`.

The JavaScript source is shallowly embedded: each function of the source is
translated to a computable Lean definition over explicit data (strings as
`String`/`List Char`, DOM fragments as structures, the process-wide
highlighter state as an explicit `Option` value threaded through the
functions, dynamic script loads as counters in the returned value).
Theorems then settle the specification's claims about those definitions.
-/

/-- Characters removed by JavaScript `String.prototype.trim`: the ECMAScript
WhiteSpace set — TAB, VT, FF, SPACE, NBSP (U+00A0), ZERO WIDTH NO-BREAK
SPACE (U+FEFF) and the Unicode Zs spaces (U+1680, U+2000–U+200A, U+202F,
U+205F, U+3000) — together with the LineTerminator set LF, CR, LINE
SEPARATOR (U+2028) and PARAGRAPH SEPARATOR (U+2029). -/
def jsIsWhite (c : Char) : Bool :=
  c.toNat = 9 || c.toNat = 10 || c.toNat = 11 || c.toNat = 12 || c.toNat = 13 ||
  c.toNat = 32 || c.toNat = 160 || c.toNat = 5760 ||
  (8192 ≤ c.toNat && c.toNat ≤ 8202) ||
  c.toNat = 8232 || c.toNat = 8233 || c.toNat = 8239 || c.toNat = 8287 ||
  c.toNat = 12288 || c.toNat = 65279

/-- List-level trim: drop whitespace characters from both ends. -/
def jsTrimL (l : List Char) : List Char :=
  ((l.dropWhile jsIsWhite).reverse.dropWhile jsIsWhite).reverse

/-- Model of JavaScript `String.prototype.trim`. -/
def jsTrim (s : String) : String :=
  String.mk (jsTrimL s.data)

/-- Model of JavaScript `String.prototype.toLowerCase` on the ASCII range
(the only range exercised by the language tags and heading text of this
corpus); `Char.toLower` lowercases exactly the ASCII uppercase letters. -/
def jsToLower (s : String) : String :=
  String.mk (s.data.map Char.toLower)

/-- The fixed alias table `LANG_MAP` of `docs-renderer.js` (lines 3-11). -/
def LANG_MAP : List (String × String) :=
  [("js", "javascript"), ("ts", "typescript"), ("html", "markup"),
   ("xml", "markup"), ("sh", "bash"), ("shell", "bash"), ("yml", "yaml")]

/-- A JavaScript value as produced by the expression `LANG_MAP[l] || l` of
`normalizeLang`: either an ordinary string, or the truthy non-string value
of an `Object.prototype` member that the property access finds on the
prototype chain (identified here by the member name it was read through). -/
inductive LangValue where
  | str (s : String)
  | protoValue (key : String)
  deriving Repr, DecidableEq

/-- The member names an object literal inherits from `Object.prototype` that
are all-lowercase — hence reachable after `toLowerCase()` — and whose values
are truthy: `constructor` (the `Object` function) and `__proto__` (the
`Object.prototype` object). For these keys `LANG_MAP[l]` is truthy although
`LANG_MAP` has no own entry, so `LANG_MAP[l] || l` yields the inherited
value, not `l`. The other inherited member names (`hasOwnProperty`,
`toString`, `valueOf`, …) contain uppercase letters and cannot survive
`toLowerCase()`. -/
def objectProtoKeys : List String := ["constructor", "__proto__"]

/-- Faithful model of `normalizeLang` (docs-renderer.js lines 13-17)
including JavaScript prototype-chain property access: a falsy (empty or
absent) tag yields `"javascript"`; otherwise the tag is lowercased and
trimmed, an alias-table (own-entry) hit returns the canonical name, a miss
on a lowercase inherited `Object.prototype` member name returns that
inherited truthy value, and any other miss returns the lowercased trimmed
tag itself. An absent (`undefined`) tag and the empty-string tag take the
same branch in the source (`if (!lang)`), so both are modelled by `""`. -/
def normalizeLangJs (lang : String) : LangValue :=
  if lang = "" then .str "javascript"
  else
    let l := jsTrim (jsToLower lang)
    match LANG_MAP.lookup l with
    | some c => .str c
    | none => if l ∈ objectProtoKeys then .protoValue l else .str l

/-- String-level projection of `normalizeLangJs`, used by the downstream
DOM-augmentation model: it agrees with the source for every tag whose
lowercased trimmed form is not an inherited `Object.prototype` member name
(see `normalizeLangJs_eq_str`). On the two member names the real program
propagates the inherited non-string value, which the string-typed DOM model
cannot carry. -/
def normalizeLang (lang : String) : String :=
  if lang = "" then "javascript"
  else
    let l := jsTrim (jsToLower lang)
    match LANG_MAP.lookup l with
    | some c => c
    | none => l

/-- A word character in the sense of the JavaScript regular-expression class
`\w`: ASCII letters, digits, and underscore. -/
def isWordChar (c : Char) : Bool :=
  ('a' ≤ c && c ≤ 'z') || ('A' ≤ c && c ≤ 'Z') || ('0' ≤ c && c ≤ '9') || c = '_'

/-- Model of `.replace(/[^\w]+/g, '-')`: every maximal run of non-word
characters is replaced by a single hyphen. The boolean argument records
whether the scan is currently inside a non-word run (so that only the first
character of a run emits the hyphen). -/
def collapseNonWord : Bool → List Char → List Char
  | _, [] => []
  | inRun, c :: cs =>
    if isWordChar c then c :: collapseNonWord false cs
    else if inRun then collapseNonWord true cs
    else '-' :: collapseNonWord true cs

/-- Model of the `^-` alternative of `.replace(/(^-|-$)/g, '')`: remove one
leading hyphen if present. -/
def stripLeadHyphen : List Char → List Char
  | [] => []
  | c :: cs => if c = '-' then cs else c :: cs

/-- Model of the `-$` alternative of `.replace(/(^-|-$)/g, '')`: remove one
trailing hyphen if present. -/
def stripTrailHyphen : List Char → List Char
  | [] => []
  | [c] => if c = '-' then [] else [c]
  | c :: cs => c :: stripTrailHyphen cs

/-- List-level slugification. -/
def slugifyL (l : List Char) : List Char :=
  stripTrailHyphen (stripLeadHyphen (collapseNonWord false (l.map Char.toLower)))

/-- Model of `slugify` (docs-renderer.js lines 38-40):
`text.toLowerCase().replace(/[^\w]+/g, '-').replace(/(^-|-$)/g, '')`. Since
the first replacement leaves no two adjacent hyphens, the second
replacement's effect is exactly: drop one leading and one trailing hyphen. -/
def slugify (s : String) : String :=
  String.mk (slugifyL s.data)

/-- Adjacent-pair relation used to state that a character list contains no
two consecutive hyphens. -/
def HyphApart (a b : Char) : Prop :=
  ¬(a = '-' ∧ b = '-')

/-- No two consecutive hyphens occur in the list. -/
def noAdjHyphen (l : List Char) : Prop :=
  l.Chain' HyphApart

/-- Model of the `.replace(/#$/, '')` step used for TOC labels: remove one
trailing `#` if present. -/
def stripTrailHash (s : String) : String :=
  match s.data.getLast? with
  | some '#' => String.mk s.data.dropLast
  | _ => s

/-- A heading element of the rendered subtree: its level (1–6), its `id`
attribute (`""` models an absent id, matching the falsy test `!h.id`), its
text content, and the number of `docs-anchor` links appended to it. -/
structure HeadingElem where
  level : Nat
  id : String
  text : String
  anchors : Nat
  deriving Repr, DecidableEq

/-- Model of the per-heading body of `addHeadingAnchors` (docs-renderer.js
lines 78-86): assign the slug of the text content as id only when the id is
absent, then unconditionally append an anchor link whose text `"#"` becomes
part of the heading's text content. -/
def addAnchor (h : HeadingElem) : HeadingElem :=
  { h with
    id := if h.id = "" then slugify h.text else h.id
    text := h.text ++ "#"
    anchors := h.anchors + 1 }

/-- Model of `addHeadingAnchors` (docs-renderer.js lines 77-87): the body
applied to every heading of the rendered subtree in document order. -/
def addHeadingAnchors (hs : List HeadingElem) : List HeadingElem :=
  hs.map addAnchor

/-- One entry of the generated table of contents: the link target (`#`
followed by the heading id), the display label, and whether the entry is a
sub-level entry (class `docs-toc-h3`). -/
structure TocEntry where
  href : String
  label : String
  sub : Bool
  deriving Repr, DecidableEq

/-- The TOC entry built for one heading (docs-renderer.js lines 101-113):
the label is the heading's text content with a trailing anchor symbol
stripped and whitespace trimmed; level-3 headings are marked as sub-level. -/
def tocEntryOf (h : HeadingElem) : TocEntry :=
  { href := "#" ++ h.id
    label := jsTrim (stripTrailHash h.text)
    sub := h.level == 3 }

/-- Model of `buildTOC` (docs-renderer.js lines 89-133): select the level-2
and level-3 headings of the rendered subtree in document order; with fewer
than 3 of them return `null` (no TOC is built); otherwise build one entry
per selected heading, preserving order. The scroll-observer attached to the
returned element is advisory UI state outside this model. -/
def buildTOC (hs : List HeadingElem) : Option (List TocEntry) :=
  let headings := hs.filter (fun h => h.level == 2 || h.level == 3)
  if headings.length < 3 then none
  else some (headings.map tocEntryOf)

/-- A grammar object of the highlighter, abstracted as its tokenization
behaviour: the pipeline only passes it from the registry to
`Prism.highlight` and never inspects it. -/
structure Grammar where
  tokenize : String → String

/-- The highlighting engine as visible to this block: the `manual` flag, the
registry `Prism.languages` associating canonical language names to
grammars, and the `Prism.highlight` entry point (text, grammar, language →
highlighted markup). -/
structure Prism where
  manual : Bool
  languages : List (String × Grammar)
  highlight : String → Grammar → String → String

/-- The fixed manifest of grammar scripts loaded by `loadPrism`
(docs-renderer.js lines 25-33). -/
def grammarManifest : List String :=
  ["prism-markup.min.js", "prism-css.min.js", "prism-javascript.min.js",
   "prism-typescript.min.js", "prism-bash.min.js", "prism-json.min.js",
   "prism-yaml.min.js"]

/-- Observable result of one `loadPrism` invocation: the returned engine,
the process-wide `window.Prism` slot after the call, and how many engine
script loads and grammar script loads the call performed. -/
structure LoadPrismResult where
  returned : Prism
  windowPrism : Option Prism
  engineLoads : Nat
  grammarLoads : Nat

/-- Model of `loadPrism` (docs-renderer.js lines 19-36). The process-wide
slot `window.Prism` is passed and returned explicitly. Importing the engine
script is modelled by `engineOf` (what `prism.min.js` installs), importing a
grammar script `g` by `grammarEffect g` applied to the current engine (each
grammar script registers its language on the engine). If the engine is
already present it is returned at once and nothing is loaded; otherwise the
engine script is loaded, automatic highlighting is disabled
(`Prism.manual = true`), and every manifest grammar is loaded. -/
def loadPrism (windowPrism : Option Prism) (engineOf : Unit → Prism)
    (grammarEffect : String → Prism → Prism) : LoadPrismResult :=
  match windowPrism with
  | some p => ⟨p, some p, 0, 0⟩
  | none =>
    let p0 := engineOf ()
    let p1 := { p0 with manual := true }
    let p2 := grammarManifest.foldl (fun acc g => grammarEffect g acc) p1
    ⟨p2, some p2, 1, grammarManifest.length⟩

/-- A fenced code block of the rendered subtree: the `<code>` element's
class list, its text content (the raw source text at augmentation time), its
inner HTML, and the enclosing `<pre>` element's class attribute. -/
structure CodeElem where
  classes : List String
  textContent : String
  innerHTML : String
  preClass : String
  deriving Repr, DecidableEq

/-- Model of JavaScript `String.prototype.startsWith`, character-level. -/
def strStarts (s pre : String) : Bool :=
  List.isPrefixOf pre.data s.data

/-- The declared language tag recovered from a `<code>` element's class
list: the first class starting with `language-` with that marker removed
(`.replace('language-', '')` removes the first occurrence of the marker,
which for such a class is the leading nine characters), or `""` when no
such class exists (the `''` passed by the ternary at line 45). -/
def declaredTag (classes : List String) : String :=
  match classes.find? (fun c => strStarts c "language-") with
  | some c => String.mk (c.data.drop 9)
  | none => ""

/-- Model of the per-block body of `highlightCodeBlocks` (docs-renderer.js
lines 43-52): normalize the declared tag and look the grammar up in
`Prism.languages`; on a hit replace the block's inner HTML with the
highlighted markup computed from the grammar; hit or miss, overwrite the
block's class and the enclosing element's class with the normalized
language marker. -/
def highlightCode (P : Prism) (code : CodeElem) : CodeElem :=
  let lang := normalizeLang (declaredTag code.classes)
  let code1 :=
    match P.languages.lookup lang with
    | some g => { code with innerHTML := P.highlight code.textContent g lang }
    | none => code
  { code1 with
    classes := ["language-" ++ lang]
    preClass := "language-" ++ lang }

/-- Model of `highlightCodeBlocks` (docs-renderer.js lines 42-53): the body
applied to every `pre code` block of the rendered subtree. -/
def highlightCodeBlocks (P : Prism) (blocks : List CodeElem) : List CodeElem :=
  blocks.map (highlightCode P)

/-- An HTTP response as consumed by `decorate`: the `ok` flag, the numeric
status, and the body text. -/
structure FetchResponse where
  ok : Bool
  status : Nat
  body : String

/-- The document the external Markdown converter produces, projected to the
parts the pipeline inspects: the fenced code blocks and the headings of the
generated HTML, in document order. -/
structure ParsedDoc where
  codeBlocks : List CodeElem
  headings : List HeadingElem

/-- Observable result of one `decorate` run: whether the block's original
content was cleared, the text currently shown by the `docs-loading` element
(`none` when that element was never created or was replaced by rendered
content), the rendered and augmented document content (if any), the built
TOC (if any), and how many document fetches and `loadPrism` invocations
were performed. -/
structure DecorateResult where
  blockCleared : Bool
  loadingText : Option String
  content : Option ParsedDoc
  toc : Option (List TocEntry)
  fetches : Nat
  loadPrismCalls : Nat

/-- Model of `decorate` (docs-renderer.js lines 135-188). The slug is the
trimmed block text; an empty slug returns before any other work. Otherwise
the fetch and the highlighter load run (concurrently in the source; both
settle before anything further happens, so they are sequenced here), a
non-success response shows an inline failure message carrying the status
code and returns, and a success response is parsed, injected, augmented
(code highlighting, then heading anchors; copy-button attachment touches no
field modelled here) and given a TOC when the threshold is met. All
collaborators are modelled as total functions, so the `catch` branch of the
source is unreachable in this model and `decorate` always returns a result
— in particular the non-success path raises nothing. -/
def decorate (blockText : String) (windowPrism : Option Prism)
    (engineOf : Unit → Prism) (grammarEffect : String → Prism → Prism)
    (fetchDoc : String → FetchResponse) (parse : String → ParsedDoc) :
    DecorateResult :=
  let slug := jsTrim blockText
  if slug = "" then
    { blockCleared := false, loadingText := none, content := none,
      toc := none, fetches := 0, loadPrismCalls := 0 }
  else
    let resp := fetchDoc slug
    let pr := loadPrism windowPrism engineOf grammarEffect
    if resp.ok = false then
      { blockCleared := true
        loadingText :=
          some ("Failed to load documentation (" ++ toString resp.status ++ ")")
        content := none, toc := none, fetches := 1, loadPrismCalls := 1 }
    else
      let doc := parse resp.body
      let doc1 : ParsedDoc :=
        { codeBlocks := highlightCodeBlocks pr.returned doc.codeBlocks
          headings := addHeadingAnchors doc.headings }
      { blockCleared := true, loadingText := none,
        content := some doc1, toc := buildTOC doc1.headings,
        fetches := 1, loadPrismCalls := 1 }

theorem charOfNat_toNat (n : Nat) (h : n < 55296) : (Char.ofNat n).toNat = n := by
  have hv : Nat.isValidChar n := Or.inl h
  simp [Char.ofNat, hv, Char.ofNatAux, Char.toNat, UInt32.toNat, BitVec.toNat_ofNatLt]

theorem toLower_of_upper (c : Char) (h : c.toNat ≥ 65 ∧ c.toNat ≤ 90) :
    Char.toLower c = Char.ofNat (c.toNat + 32) := by
  simp [Char.toLower, h]

theorem toLower_of_not_upper (c : Char) (h : ¬(c.toNat ≥ 65 ∧ c.toNat ≤ 90)) :
    Char.toLower c = c := by
  simp [Char.toLower]
  intro h1 h2
  omega

theorem toNat_toLower_not_upper (c : Char) :
    ¬((Char.toLower c).toNat ≥ 65 ∧ (Char.toLower c).toNat ≤ 90) := by
  by_cases h : c.toNat ≥ 65 ∧ c.toNat ≤ 90
  · rw [toLower_of_upper c h, charOfNat_toNat _ (by omega)]
    omega
  · rw [toLower_of_not_upper c h]
    exact h

theorem toLower_idem (c : Char) :
    Char.toLower (Char.toLower c) = Char.toLower c :=
  toLower_of_not_upper _ (toNat_toLower_not_upper c)

theorem toNat_bounds_of_jsIsWhite (c : Char) (h : jsIsWhite c = true) :
    c.toNat ≤ 32 ∨ 160 ≤ c.toNat := by
  simp only [jsIsWhite, Bool.or_eq_true, Bool.and_eq_true,
    decide_eq_true_eq] at h
  omega

theorem jsIsWhite_toLower (c : Char) :
    jsIsWhite (Char.toLower c) = jsIsWhite c := by
  by_cases h : c.toNat ≥ 65 ∧ c.toNat ≤ 90
  · have hrange : (Char.toLower c).toNat = c.toNat + 32 := by
      rw [toLower_of_upper c h, charOfNat_toNat _ (by omega)]
    have hl : jsIsWhite (Char.toLower c) = false := by
      cases hw : jsIsWhite (Char.toLower c)
      · rfl
      · rcases toNat_bounds_of_jsIsWhite _ hw with h2 | h2 <;> omega
    have hr : jsIsWhite c = false := by
      cases hw : jsIsWhite c
      · rfl
      · rcases toNat_bounds_of_jsIsWhite _ hw with h2 | h2 <;> omega
    rw [hl, hr]
  · rw [toLower_of_not_upper c h]

theorem exists_not_of_dropWhile {p : Char → Bool} (l : List Char)
    (h : ∃ c ∈ l, p c = false) : ∃ c ∈ l.dropWhile p, p c = false := by
  induction l with
  | nil => simp at h
  | cons a as ih =>
    obtain ⟨c, hc, hpc⟩ := h
    by_cases hpa : p a = true
    · rw [List.dropWhile_cons_of_pos hpa]
      apply ih
      rcases List.mem_cons.mp hc with rfl | hc
      · exact absurd hpa (by simp [hpc])
      · exact ⟨c, hc, hpc⟩
    · rw [List.dropWhile_cons_of_neg hpa]
      exact ⟨c, hc, hpc⟩

theorem jsTrimL_ne_nil (l : List Char) (h : ∃ c ∈ l, jsIsWhite c = false) :
    jsTrimL l ≠ [] := by
  unfold jsTrimL
  have h1 := exists_not_of_dropWhile l h
  have h2 : ∃ c ∈ (l.dropWhile jsIsWhite).reverse, jsIsWhite c = false := by
    obtain ⟨c, hc, hpc⟩ := h1
    exact ⟨c, List.mem_reverse.mpr hc, hpc⟩
  obtain ⟨c, hc, _⟩ := exists_not_of_dropWhile _ h2
  intro hnil
  rw [List.reverse_eq_nil_iff.mp hnil] at hc
  simp at hc

theorem string_mk_ne_empty (l : List Char) (h : l ≠ []) : String.mk l ≠ "" := by
  intro he
  exact h (congrArg String.data he)

theorem lookup_LANG_MAP_ne_empty (l v : String)
    (h : LANG_MAP.lookup l = some v) : v ≠ "" := by
  simp only [LANG_MAP, List.lookup] at h
  repeat' split at h
  all_goals (intro he; subst he; exact absurd h (by decide))

theorem normalizeLangJs_eq_str (lang : String)
    (h : jsTrim (jsToLower lang) ∉ objectProtoKeys) :
    normalizeLangJs lang = LangValue.str (normalizeLang lang) := by
  by_cases hne : lang = ""
  · subst hne
    rfl
  · cases hl : LANG_MAP.lookup (jsTrim (jsToLower lang)) with
    | some v => simp [normalizeLangJs, normalizeLang, hne, hl]
    | none => simp [normalizeLangJs, normalizeLang, hne, hl, h]

/-- C2 counterexample: the tag `"constructor"` is neither empty nor an own
entry of the alias table, yet the normalizer does not return it unchanged —
the property access `LANG_MAP['constructor']` finds the inherited truthy
`Object.prototype.constructor` on the prototype chain, so `|| l` yields
that inherited value rather than the lowercased trimmed tag. -/
theorem normalizeLang_proto_counterexample :
    normalizeLangJs "constructor" ≠ LangValue.str "constructor" ∧
    normalizeLangJs "constructor" = LangValue.protoValue "constructor" := by
  constructor
  · decide
  · decide

/-- C2 (amended): the language normalizer is a pure total function (a Lean
function of its argument alone) such that: the empty/absent tag maps to
`"javascript"`; every tag of the fixed alias table maps to its canonical
name (and more generally, any tag whose lowercased trimmed form hits the
table maps to that entry's canonical name); every other tag whose
lowercased trimmed form is not an inherited `Object.prototype` member name
maps to its lowercased, trimmed form unchanged; and a tag whose lowercased
trimmed form is one of the two reachable inherited member names
(`constructor`, `__proto__`) maps to the inherited prototype value instead
of the tag. -/
theorem normalizeLangJs_contract :
    normalizeLangJs "" = LangValue.str "javascript" ∧
    (∀ p ∈ LANG_MAP, normalizeLangJs p.1 = LangValue.str p.2) ∧
    (∀ lang c, lang ≠ "" → LANG_MAP.lookup (jsTrim (jsToLower lang)) = some c →
      normalizeLangJs lang = LangValue.str c) ∧
    (∀ lang, lang ≠ "" → LANG_MAP.lookup (jsTrim (jsToLower lang)) = none →
      jsTrim (jsToLower lang) ∉ objectProtoKeys →
      normalizeLangJs lang = LangValue.str (jsTrim (jsToLower lang))) ∧
    (∀ lang, lang ≠ "" → LANG_MAP.lookup (jsTrim (jsToLower lang)) = none →
      jsTrim (jsToLower lang) ∈ objectProtoKeys →
      normalizeLangJs lang = LangValue.protoValue (jsTrim (jsToLower lang))) := by
  refine ⟨rfl, by decide, ?_, ?_, ?_⟩
  · intro lang c hne hl
    simp [normalizeLangJs, hne, hl]
  · intro lang hne hl hp
    simp [normalizeLangJs, hne, hl, hp]
  · intro lang hne hl hp
    simp [normalizeLangJs, hne, hl, hp]

/-- Witness for C2 (amended) at concrete inputs: the aliased tag `"JS "`
(uppercase, trailing whitespace) resolves through the table to
`"javascript"`; the unaliased tag `"ruby"` passes through unchanged; and
the tag `"Constructor"` lowercases onto an inherited member name and
resolves to the prototype value. -/
theorem normalizeLangJs_contract_witness :
    normalizeLangJs "JS " = LangValue.str "javascript" ∧
    normalizeLangJs "ruby" = LangValue.str "ruby" ∧
    normalizeLangJs "Constructor" = LangValue.protoValue "constructor" :=
  ⟨normalizeLangJs_contract.2.2.1 "JS " "javascript" (by decide) (by decide),
   (normalizeLangJs_contract.2.2.2.1 "ruby" (by decide) (by decide)
     (by decide)).trans (by decide),
   (normalizeLangJs_contract.2.2.2.2 "Constructor" (by decide) (by decide)
     (by decide)).trans (by decide)⟩

/-- C3 counterexample: the whitespace-only tag `" "` is neither empty nor
absent, so it takes the non-default branch, is lowercased and trimmed to
`""`, finds no table entry, and comes back as `""` — an empty resolved tag,
contradicting the claim that the resolved tag is non-empty for every raw
tag including whitespace-only ones. The NBSP-only tag `"\u00A0"` behaves
the same way (and is even reachable through the call site, since class-list
tokens are split on ASCII whitespace only, so an NBSP sits inside a
token). -/
theorem normalizeLang_whitespace_counterexample :
    normalizeLang " " = "" ∧ (" " : String) ≠ "" ∧
    normalizeLang "\u00A0" = "" ∧ ("\u00A0" : String) ≠ "" := by
  refine ⟨rfl, by decide, rfl, by decide⟩

/-- C3 (amended): for every raw language tag that is empty/absent or
contains at least one character outside the whitespace set removed by
`String.prototype.trim`, the resolved tag produced by normalization is
non-empty. (A whitespace-only tag — reachable, e.g. an NBSP-only class
remainder, since class tokens split on ASCII whitespace only — resolves to
the empty tag instead.) -/
theorem normalizeLang_ne_empty (lang : String)
    (h : lang = "" ∨ ∃ c ∈ lang.data, jsIsWhite c = false) :
    normalizeLang lang ≠ "" := by
  rcases h with rfl | ⟨c, hc, hw⟩
  · intro h
    exact absurd h (by decide)
  · have hne : lang ≠ "" := by
      intro he
      subst he
      simp at hc
    cases hl : LANG_MAP.lookup (jsTrim (jsToLower lang)) with
    | some v =>
      have hv : normalizeLang lang = v := by simp [normalizeLang, hne, hl]
      rw [hv]
      exact lookup_LANG_MAP_ne_empty _ v hl
    | none =>
      have hv : normalizeLang lang = jsTrim (jsToLower lang) := by
        simp [normalizeLang, hne, hl]
      rw [hv]
      unfold jsTrim jsToLower
      apply string_mk_ne_empty
      apply jsTrimL_ne_nil
      exact ⟨Char.toLower c, List.mem_map_of_mem Char.toLower hc,
        by rw [jsIsWhite_toLower]; exact hw⟩

/-- Witness for C3 (amended) at the concrete tag `"c"`, which contains the
non-whitespace character `'c'`. -/
theorem normalizeLang_ne_empty_witness : normalizeLang "c" ≠ "" :=
  normalizeLang_ne_empty "c" (Or.inr ⟨'c', by decide, by decide⟩)

theorem isWordChar_ne_hyphen (c : Char) (h : isWordChar c = true) : c ≠ '-' := by
  intro he
  subst he
  exact absurd h (by decide)

theorem mem_collapseNonWord (b : Bool) (l : List Char) (c : Char)
    (h : c ∈ collapseNonWord b l) : c = '-' ∨ (isWordChar c = true ∧ c ∈ l) := by
  induction l generalizing b with
  | nil => simp [collapseNonWord] at h
  | cons a as ih =>
    by_cases hw : isWordChar a = true
    · simp only [collapseNonWord, if_pos hw] at h
      rcases List.mem_cons.mp h with rfl | h
      · exact Or.inr ⟨hw, List.mem_cons_self _ _⟩
      · rcases ih false h with h | ⟨h1, h2⟩
        · exact Or.inl h
        · exact Or.inr ⟨h1, List.mem_cons_of_mem _ h2⟩
    · cases b with
      | true =>
        simp only [collapseNonWord, if_neg hw, if_pos rfl] at h
        rcases ih true h with h | ⟨h1, h2⟩
        · exact Or.inl h
        · exact Or.inr ⟨h1, List.mem_cons_of_mem _ h2⟩
      | false =>
        simp only [collapseNonWord, if_neg hw, if_neg Bool.false_ne_true] at h
        rcases List.mem_cons.mp h with rfl | h
        · exact Or.inl rfl
        · rcases ih true h with h | ⟨h1, h2⟩
          · exact Or.inl h
          · exact Or.inr ⟨h1, List.mem_cons_of_mem _ h2⟩

theorem head_collapseNonWord_true (l : List Char) (c : Char)
    (h : (collapseNonWord true l).head? = some c) : isWordChar c = true := by
  induction l with
  | nil => simp [collapseNonWord] at h
  | cons a as ih =>
    by_cases hw : isWordChar a = true
    · simp only [collapseNonWord, if_pos hw, List.head?_cons] at h
      injection h with h
      subst h
      exact hw
    · simp only [collapseNonWord, if_neg hw, if_pos rfl] at h
      exact ih h

theorem noAdjHyphen_collapseNonWord (b : Bool) (l : List Char) :
    noAdjHyphen (collapseNonWord b l) := by
  induction l generalizing b with
  | nil => simp [collapseNonWord, noAdjHyphen]
  | cons a as ih =>
    by_cases hw : isWordChar a = true
    · simp only [collapseNonWord, if_pos hw]
      exact List.Chain'.cons' (ih false) (fun y _ hc => isWordChar_ne_hyphen a hw hc.1)
    · cases b with
      | true =>
        simp only [collapseNonWord, if_neg hw, if_pos rfl]
        exact ih true
      | false =>
        simp only [collapseNonWord, if_neg hw, if_neg Bool.false_ne_true]
        refine List.Chain'.cons' (ih true) ?_
        intro y hy hc
        exact isWordChar_ne_hyphen y
          (head_collapseNonWord_true as y (Option.mem_def.mp hy)) hc.2

theorem mem_stripLeadHyphen (l : List Char) (c : Char)
    (h : c ∈ stripLeadHyphen l) : c ∈ l := by
  cases l with
  | nil => simp [stripLeadHyphen] at h
  | cons a as =>
    by_cases ha : a = '-'
    · simp only [stripLeadHyphen, if_pos ha] at h
      exact List.mem_cons_of_mem a h
    · simpa only [stripLeadHyphen, if_neg ha] using h

theorem noAdjHyphen_stripLeadHyphen (l : List Char) (h : noAdjHyphen l) :
    noAdjHyphen (stripLeadHyphen l) := by
  cases l with
  | nil => exact h
  | cons a as =>
    by_cases ha : a = '-'
    · simp only [stripLeadHyphen, if_pos ha]
      exact List.Chain'.tail h
    · simpa only [stripLeadHyphen, if_neg ha] using h

theorem head_stripLeadHyphen_ne (l : List Char) (h : noAdjHyphen l) :
    (stripLeadHyphen l).head? ≠ some '-' := by
  cases l with
  | nil => simp [stripLeadHyphen]
  | cons a as =>
    by_cases ha : a = '-'
    · simp only [stripLeadHyphen, if_pos ha]
      intro hh
      subst ha
      exact (List.chain'_cons'.mp h).1 '-' (Option.mem_def.mpr hh) ⟨rfl, rfl⟩
    · simp only [stripLeadHyphen, if_neg ha, List.head?_cons]
      intro hh
      injection hh with hh
      exact ha hh

theorem stripLeadHyphen_fix (l : List Char) (h : l.head? ≠ some '-') :
    stripLeadHyphen l = l := by
  cases l with
  | nil => rfl
  | cons a as =>
    have ha : a ≠ '-' := by
      intro he
      exact h (by rw [he, List.head?_cons])
    simp only [stripLeadHyphen, if_neg ha]

theorem mem_stripTrailHyphen (l : List Char) (c : Char)
    (h : c ∈ stripTrailHyphen l) : c ∈ l := by
  induction l with
  | nil => simp [stripTrailHyphen] at h
  | cons a as ih =>
    cases as with
    | nil =>
      by_cases ha : a = '-'
      · simp only [stripTrailHyphen, if_pos ha] at h
        simp at h
      · simpa only [stripTrailHyphen, if_neg ha] using h
    | cons a2 as2 =>
      simp only [stripTrailHyphen] at h
      rcases List.mem_cons.mp h with rfl | h
      · exact List.mem_cons_self _ _
      · exact List.mem_cons_of_mem a (ih h)

theorem stripTrailHyphen_eq_nil (l : List Char) (h : stripTrailHyphen l = []) :
    l = [] ∨ l = ['-'] := by
  cases l with
  | nil => exact Or.inl rfl
  | cons a as =>
    cases as with
    | nil =>
      by_cases ha : a = '-'
      · exact Or.inr (by rw [ha])
      · simp only [stripTrailHyphen, if_neg ha] at h
        exact absurd h (List.cons_ne_nil _ _)
    | cons a2 as2 =>
      simp only [stripTrailHyphen] at h
      exact absurd h (List.cons_ne_nil _ _)

theorem head_stripTrailHyphen (l : List Char) (c : Char)
    (h : (stripTrailHyphen l).head? = some c) : l.head? = some c := by
  cases l with
  | nil => simp [stripTrailHyphen] at h
  | cons a as =>
    cases as with
    | nil =>
      by_cases ha : a = '-'
      · simp only [stripTrailHyphen, if_pos ha] at h
        simp at h
      · simpa only [stripTrailHyphen, if_neg ha] using h
    | cons a2 as2 =>
      simpa only [stripTrailHyphen, List.head?_cons] using h

theorem noAdjHyphen_stripTrailHyphen (l : List Char) (h : noAdjHyphen l) :
    noAdjHyphen (stripTrailHyphen l) := by
  induction l with
  | nil => exact h
  | cons a as ih =>
    cases as with
    | nil =>
      by_cases ha : a = '-'
      · simp only [stripTrailHyphen, if_pos ha]
        exact List.chain'_nil
      · simpa only [stripTrailHyphen, if_neg ha] using h
    | cons a2 as2 =>
      simp only [stripTrailHyphen]
      refine List.Chain'.cons' (ih (List.Chain'.tail h)) ?_
      intro y hy hc
      have hy2 := head_stripTrailHyphen _ _ (Option.mem_def.mp hy)
      rw [List.head?_cons] at hy2
      injection hy2 with hy2
      exact (List.chain'_cons.mp h).1 ⟨hc.1, by rw [hy2]; exact hc.2⟩

theorem getLast_stripTrailHyphen_ne (l : List Char) (h : noAdjHyphen l) :
    (stripTrailHyphen l).getLast? ≠ some '-' := by
  induction l with
  | nil => simp [stripTrailHyphen]
  | cons a as ih =>
    cases as with
    | nil =>
      by_cases ha : a = '-'
      · simp [stripTrailHyphen, if_pos ha]
      · simp only [stripTrailHyphen, if_neg ha, List.getLast?_singleton]
        intro hh
        injection hh with hh
        exact ha hh
    | cons a2 as2 =>
      simp only [stripTrailHyphen]
      cases hX : stripTrailHyphen (a2 :: as2) with
      | nil =>
        rcases stripTrailHyphen_eq_nil _ hX with h2 | h2
        · exact absurd h2 (by simp)
        · simp only [List.getLast?_singleton]
          intro hh
          injection hh with hh
          have ha2 : a2 = '-' := by
            injection h2
          exact (List.chain'_cons.mp h).1 ⟨hh, ha2⟩
      | cons x xs =>
        rw [List.getLast?_cons_cons]
        rw [← hX]
        exact ih (List.Chain'.tail h)

theorem stripTrailHyphen_fix (l : List Char) (h : l.getLast? ≠ some '-') :
    stripTrailHyphen l = l := by
  induction l with
  | nil => rfl
  | cons a as ih =>
    cases as with
    | nil =>
      have ha : a ≠ '-' := by
        intro he
        exact h (by rw [he, List.getLast?_singleton])
      simp only [stripTrailHyphen, if_neg ha]
    | cons a2 as2 =>
      simp only [stripTrailHyphen]
      rw [ih (by rwa [List.getLast?_cons_cons] at h)]

theorem collapseNonWord_fix (l : List Char)
    (hchar : ∀ c ∈ l, isWordChar c = true ∨ c = '-') (hadj : noAdjHyphen l) :
    collapseNonWord false l = l ∧
    (l.head? ≠ some '-' → collapseNonWord true l = l) := by
  induction l with
  | nil => exact ⟨rfl, fun _ => rfl⟩
  | cons a as ih =>
    have ihs := ih (fun c hc => hchar c (List.mem_cons_of_mem a hc))
      (List.Chain'.tail hadj)
    rcases hchar a (List.mem_cons_self a as) with hw | hh
    · constructor
      · simp only [collapseNonWord, if_pos hw, ihs.1]
      · intro _
        simp only [collapseNonWord, if_pos hw, ihs.1]
    · subst hh
      have hw : ¬ isWordChar '-' = true := by decide
      have htail : as.head? ≠ some '-' := by
        intro hh2
        exact (List.chain'_cons'.mp hadj).1 '-' (Option.mem_def.mpr hh2) ⟨rfl, rfl⟩
      constructor
      · simp only [collapseNonWord, if_neg hw, if_neg Bool.false_ne_true,
          ihs.2 htail]
      · intro hhead
        exact absurd (List.head?_cons) hhead

theorem toLower_fix_slugifyL (l : List Char) (c : Char) (h : c ∈ slugifyL l) :
    Char.toLower c = c := by
  have h1 : c ∈ collapseNonWord false (l.map Char.toLower) :=
    mem_stripLeadHyphen _ _ (mem_stripTrailHyphen _ _ h)
  rcases mem_collapseNonWord _ _ _ h1 with rfl | ⟨_, h2⟩
  · decide
  · obtain ⟨d, _, rfl⟩ := List.mem_map.mp h2
    exact toLower_idem d

theorem slugifyL_charset (l : List Char) :
    ∀ c ∈ slugifyL l, isWordChar c = true ∨ c = '-' := by
  intro c h
  have h1 : c ∈ collapseNonWord false (l.map Char.toLower) :=
    mem_stripLeadHyphen _ _ (mem_stripTrailHyphen _ _ h)
  rcases mem_collapseNonWord _ _ _ h1 with rfl | ⟨h2, _⟩
  · exact Or.inr rfl
  · exact Or.inl h2

theorem slugifyL_noAdj (l : List Char) : noAdjHyphen (slugifyL l) :=
  noAdjHyphen_stripTrailHyphen _
    (noAdjHyphen_stripLeadHyphen _ (noAdjHyphen_collapseNonWord false _))

theorem slugifyL_head (l : List Char) : (slugifyL l).head? ≠ some '-' := by
  intro h
  exact head_stripLeadHyphen_ne _ (noAdjHyphen_collapseNonWord false _)
    (head_stripTrailHyphen _ _ h)

theorem slugifyL_last (l : List Char) : (slugifyL l).getLast? ≠ some '-' :=
  getLast_stripTrailHyphen_ne _
    (noAdjHyphen_stripLeadHyphen _ (noAdjHyphen_collapseNonWord false _))

theorem slugifyL_idem (l : List Char) : slugifyL (slugifyL l) = slugifyL l := by
  have hmap : (slugifyL l).map Char.toLower = slugifyL l := by
    conv_rhs => rw [← List.map_id (slugifyL l)]
    exact List.map_congr_left (fun c hc => toLower_fix_slugifyL l c hc)
  show stripTrailHyphen (stripLeadHyphen
    (collapseNonWord false ((slugifyL l).map Char.toLower))) = slugifyL l
  rw [hmap, (collapseNonWord_fix _ (slugifyL_charset l) (slugifyL_noAdj l)).1,
    stripLeadHyphen_fix _ (slugifyL_head l),
    stripTrailHyphen_fix _ (slugifyL_last l)]

/-- C4: heading slugification is deterministic (it is a pure Lean function of
its argument) and idempotent — slugifying twice equals slugifying once; the
result never starts or ends with a hyphen; and every character of the result
is a word character or a hyphen. -/
theorem slugify_contract (s : String) :
    slugify (slugify s) = slugify s ∧
    (slugify s).data.head? ≠ some '-' ∧
    (slugify s).data.getLast? ≠ some '-' ∧
    ∀ c ∈ (slugify s).data, isWordChar c = true ∨ c = '-' :=
  ⟨congrArg String.mk (slugifyL_idem s.data), slugifyL_head s.data,
   slugifyL_last s.data, slugifyL_charset s.data⟩

/-- Witness for C4 at the concrete heading text `"  Hello, World! "`: the
slug is `"hello-world"` and re-slugifying is the identity on it. -/
theorem slugify_contract_witness :
    slugify "  Hello, World! " = "hello-world" ∧
    slugify (slugify "  Hello, World! ") = slugify "  Hello, World! " :=
  ⟨by decide, (slugify_contract "  Hello, World! ").1⟩

/-- C5: a rendered document whose subtree holds fewer than 3 level-2/3
headings gets no table of contents; one with 3 or more gets a TOC with
exactly one entry per such heading, in document order. -/
theorem buildTOC_threshold (hs : List HeadingElem) :
    ((hs.filter (fun h => h.level == 2 || h.level == 3)).length < 3 →
      buildTOC hs = none) ∧
    (3 ≤ (hs.filter (fun h => h.level == 2 || h.level == 3)).length →
      buildTOC hs =
        some ((hs.filter (fun h => h.level == 2 || h.level == 3)).map
          tocEntryOf)) := by
  constructor
  · intro h
    simp only [buildTOC, if_pos h]
  · intro h
    have h2 : ¬(hs.filter (fun h => h.level == 2 || h.level == 3)).length < 3 := by
      omega
    simp only [buildTOC, if_neg h2]

/-- Witness for C5: two level-2/3 headings yield no TOC; three yield exactly
one entry per heading, in document order. -/
theorem buildTOC_threshold_witness :
    buildTOC [⟨2, "a", "Alpha#", 1⟩, ⟨3, "b", "Beta#", 1⟩] = none ∧
    buildTOC [⟨2, "a", "Alpha#", 1⟩, ⟨3, "b", "Beta#", 1⟩, ⟨2, "c", "Gamma#", 1⟩] =
      some [⟨"#a", "Alpha", false⟩, ⟨"#b", "Beta", true⟩, ⟨"#c", "Gamma", false⟩] :=
  ⟨(buildTOC_threshold [⟨2, "a", "Alpha#", 1⟩, ⟨3, "b", "Beta#", 1⟩]).1
      (by decide),
   ((buildTOC_threshold
      [⟨2, "a", "Alpha#", 1⟩, ⟨3, "b", "Beta#", 1⟩, ⟨2, "c", "Gamma#", 1⟩]).2
      (by decide)).trans (by decide)⟩

/-- C6: the highlighter loader is idempotent — whatever the initial
process-wide state, invoking it a second time in sequence performs zero
engine loads and zero grammar loads and immediately returns exactly the
engine state the first invocation established (leaving that state in
place). -/
theorem loadPrism_idempotent (windowPrism : Option Prism)
    (engineOf : Unit → Prism) (grammarEffect : String → Prism → Prism) :
    (loadPrism (loadPrism windowPrism engineOf grammarEffect).windowPrism
        engineOf grammarEffect).returned =
      (loadPrism windowPrism engineOf grammarEffect).returned ∧
    (loadPrism (loadPrism windowPrism engineOf grammarEffect).windowPrism
        engineOf grammarEffect).windowPrism =
      (loadPrism windowPrism engineOf grammarEffect).windowPrism ∧
    (loadPrism (loadPrism windowPrism engineOf grammarEffect).windowPrism
        engineOf grammarEffect).engineLoads = 0 ∧
    (loadPrism (loadPrism windowPrism engineOf grammarEffect).windowPrism
        engineOf grammarEffect).grammarLoads = 0 := by
  cases windowPrism <;> simp [loadPrism]

/-- C7: for every code block, the augmenter replaces the block's content
with highlighted markup exactly when the registry holds a grammar for the
normalized tag (leaving the content untouched otherwise), and in all cases
overwrites both the block's and its enclosing element's language marker
with the normalized tag; in particular a block tagged `js` ends with marker
`language-javascript`. -/
theorem highlightCodeBlocks_contract (P : Prism) (blocks : List CodeElem) :
    highlightCodeBlocks P blocks = blocks.map (highlightCode P) ∧
    (∀ code g,
      P.languages.lookup (normalizeLang (declaredTag code.classes)) = some g →
      (highlightCode P code).innerHTML =
        P.highlight code.textContent g
          (normalizeLang (declaredTag code.classes))) ∧
    (∀ code,
      P.languages.lookup (normalizeLang (declaredTag code.classes)) = none →
      (highlightCode P code).innerHTML = code.innerHTML) ∧
    (∀ code : CodeElem,
      (highlightCode P code).classes =
        ["language-" ++ normalizeLang (declaredTag code.classes)] ∧
      (highlightCode P code).preClass =
        "language-" ++ normalizeLang (declaredTag code.classes)) ∧
    (∀ code : CodeElem, declaredTag code.classes = "js" →
      (highlightCode P code).classes = ["language-javascript"] ∧
      (highlightCode P code).preClass = "language-javascript") := by
  refine ⟨rfl, ?_, ?_, ?_, ?_⟩
  · intro code g hg
    simp [highlightCode, hg]
  · intro code hg
    simp [highlightCode, hg]
  · intro code
    cases hg : P.languages.lookup (normalizeLang (declaredTag code.classes)) <;>
      simp [highlightCode, hg]
  · intro code htag
    have hjs : normalizeLang (declaredTag code.classes) = "javascript" := by
      rw [htag]
      rfl
    cases hg : P.languages.lookup (normalizeLang (declaredTag code.classes)) <;>
      simp [highlightCode, hg, hjs]

/-- Witness for C7 at a concrete engine and block: the registry holds a
`javascript` grammar, the block is tagged `language-js`, and after
augmentation the enclosing marker reads `language-javascript` and the
content is the grammar-computed markup. -/
theorem highlightCodeBlocks_contract_witness :
    (highlightCode
      ⟨true, [("javascript", ⟨fun s => s⟩)],
        fun t _ l => "<span class=" ++ l ++ ">" ++ t ++ "</span>"⟩
      ⟨["language-js"], "let x = 1", "let x = 1", ""⟩).preClass =
      "language-javascript" ∧
    (highlightCode
      ⟨true, [("javascript", ⟨fun s => s⟩)],
        fun t _ l => "<span class=" ++ l ++ ">" ++ t ++ "</span>"⟩
      ⟨["language-js"], "let x = 1", "let x = 1", ""⟩).innerHTML =
      "<span class=javascript>let x = 1</span>" :=
  ⟨((highlightCodeBlocks_contract
      ⟨true, [("javascript", ⟨fun s => s⟩)],
        fun t _ l => "<span class=" ++ l ++ ">" ++ t ++ "</span>"⟩
      []).2.2.2.2
      ⟨["language-js"], "let x = 1", "let x = 1", ""⟩ (by decide)).2,
   ((highlightCodeBlocks_contract
      ⟨true, [("javascript", ⟨fun s => s⟩)],
        fun t _ l => "<span class=" ++ l ++ ">" ++ t ++ "</span>"⟩
      []).2.1
      ⟨["language-js"], "let x = 1", "let x = 1", ""⟩ ⟨fun s => s⟩ (by rfl)).trans
      (by decide)⟩

/-- C8 counterexample: re-running the heading augmenter on a heading that
already carries the id `"setup"` and one appended anchor link leaves the id
unchanged but appends a second anchor link — the source appends the anchor
unconditionally, so the no-duplicate-anchor half of the claim fails. -/
theorem addAnchor_rerun_counterexample :
    (addAnchor ⟨2, "setup", "Setup#", 1⟩).id = "setup" ∧
    (addAnchor ⟨2, "setup", "Setup#", 1⟩).anchors = 2 := by
  constructor <;> rfl

/-- C8 (amended): for every heading already carrying an id, re-running the
augmenter leaves the id unchanged, but appends one further anchor link per
run — duplicate-anchor suppression is not implemented. -/
theorem addAnchor_rerun (h : HeadingElem) (hid : h.id ≠ "") :
    (addAnchor h).id = h.id ∧ (addAnchor h).anchors = h.anchors + 1 := by
  simp [addAnchor, hid]

/-- Witness for C8 (amended) at a concrete already-augmented heading. -/
theorem addAnchor_rerun_witness :
    (addAnchor ⟨3, "intro", "Intro#", 1⟩).id = "intro" ∧
    (addAnchor ⟨3, "intro", "Intro#", 1⟩).anchors = 2 :=
  addAnchor_rerun ⟨3, "intro", "Intro#", 1⟩ (by decide)

/-- C9 counterexample: a document with two headings both reading `"Setup"`
and no pre-existing ids receives the id `"setup"` on both — the two anchor
ids collide instead of being distinct. -/
theorem duplicate_heading_counterexample :
    (addHeadingAnchors [⟨2, "", "Setup", 0⟩, ⟨2, "", "Setup", 0⟩]).map
      HeadingElem.id = ["setup", "setup"] := by
  decide

/-- C9 (amended): two id-less headings with identical text receive
identical ids, namely the slug of the shared text; the augmenter applies no
collision avoidance. -/
theorem duplicate_heading_ids (t : String) :
    (addHeadingAnchors [⟨2, "", t, 0⟩, ⟨2, "", t, 0⟩]).map HeadingElem.id =
      [slugify t, slugify t] := by
  simp [addHeadingAnchors, addAnchor]

/-- C1: when the document identifier is non-empty and the fetched response
is non-success, `decorate` returns normally (this path consults neither the
converter nor the augmenters, and the model is a total function — nothing
is raised), renders no document content and builds no TOC, and the loading
element displays an inline message containing the numeric status code. -/
theorem decorate_fetch_failure (blockText : String) (windowPrism : Option Prism)
    (engineOf : Unit → Prism) (grammarEffect : String → Prism → Prism)
    (fetchDoc : String → FetchResponse) (parse : String → ParsedDoc)
    (hslug : jsTrim blockText ≠ "")
    (hok : (fetchDoc (jsTrim blockText)).ok = false) :
    (decorate blockText windowPrism engineOf grammarEffect fetchDoc parse).content
      = none ∧
    (decorate blockText windowPrism engineOf grammarEffect fetchDoc parse).toc
      = none ∧
    (decorate blockText windowPrism engineOf grammarEffect fetchDoc parse).loadingText
      = some ("Failed to load documentation ("
          ++ toString (fetchDoc (jsTrim blockText)).status ++ ")") := by
  refine ⟨?_, ?_, ?_⟩ <;> simp [decorate, hslug, hok]

/-- Witness for C1: a 404 response for slug `"getting-started"` yields a
visible message containing `404` and no rendered content. -/
theorem decorate_fetch_failure_witness :
    (decorate "getting-started" none (fun _ => ⟨true, [], fun t _ _ => t⟩)
      (fun _ p => p) (fun _ => ⟨false, 404, ""⟩) (fun _ => ⟨[], []⟩)).content
      = none ∧
    (decorate "getting-started" none (fun _ => ⟨true, [], fun t _ _ => t⟩)
      (fun _ p => p) (fun _ => ⟨false, 404, ""⟩) (fun _ => ⟨[], []⟩)).loadingText
      = some "Failed to load documentation (404)" :=
  ⟨(decorate_fetch_failure "getting-started" none
      (fun _ => ⟨true, [], fun t _ _ => t⟩) (fun _ p => p)
      (fun _ => ⟨false, 404, ""⟩) (fun _ => ⟨[], []⟩) (by decide) rfl).1,
   ((decorate_fetch_failure "getting-started" none
      (fun _ => ⟨true, [], fun t _ _ => t⟩) (fun _ p => p)
      (fun _ => ⟨false, 404, ""⟩) (fun _ => ⟨[], []⟩) (by decide) rfl).2.2).trans
      (by decide)⟩

/-- C10: when the captured identifier trims to the empty string (empty or
whitespace-only block text), `decorate` returns before performing any work:
no fetch is issued, the highlighter loader is never invoked, the block's
existing content is not cleared, and nothing is rendered or displayed. -/
theorem decorate_empty_slug (blockText : String) (windowPrism : Option Prism)
    (engineOf : Unit → Prism) (grammarEffect : String → Prism → Prism)
    (fetchDoc : String → FetchResponse) (parse : String → ParsedDoc)
    (h : jsTrim blockText = "") :
    (decorate blockText windowPrism engineOf grammarEffect fetchDoc parse).fetches
      = 0 ∧
    (decorate blockText windowPrism engineOf grammarEffect fetchDoc parse).loadPrismCalls
      = 0 ∧
    (decorate blockText windowPrism engineOf grammarEffect fetchDoc parse).blockCleared
      = false ∧
    (decorate blockText windowPrism engineOf grammarEffect fetchDoc parse).content
      = none ∧
    (decorate blockText windowPrism engineOf grammarEffect fetchDoc parse).loadingText
      = none := by
  refine ⟨?_, ?_, ?_, ?_, ?_⟩ <;> simp only [decorate, if_pos h]

/-- Witness for C10 at the whitespace-only block text `"   "`. -/
theorem decorate_empty_slug_witness :
    (decorate "   " none (fun _ => ⟨true, [], fun t _ _ => t⟩)
      (fun _ p => p) (fun _ => ⟨true, 200, "# Doc"⟩) (fun _ => ⟨[], []⟩)).fetches
      = 0 ∧
    (decorate "   " none (fun _ => ⟨true, [], fun t _ _ => t⟩)
      (fun _ p => p) (fun _ => ⟨true, 200, "# Doc"⟩) (fun _ => ⟨[], []⟩)).blockCleared
      = false :=
  ⟨(decorate_empty_slug "   " none (fun _ => ⟨true, [], fun t _ _ => t⟩)
      (fun _ p => p) (fun _ => ⟨true, 200, "# Doc"⟩) (fun _ => ⟨[], []⟩)
      (by decide)).1,
   (decorate_empty_slug "   " none (fun _ => ⟨true, [], fun t _ _ => t⟩)
      (fun _ p => p) (fun _ => ⟨true, 200, "# Doc"⟩) (fun _ => ⟨[], []⟩)
      (by decide)).2.2.1⟩
